import Mathlib

/-!
Shallow embedding of the tool-server client protocol layer
(`src/services/mcpClient.ts`, class `MCPClient`).

The client owns one server-push event stream, one derived session endpoint,
a monotonic request-identifier counter, and a map of in-flight calls.
JavaScript promises/continuations are modelled by explicit state passing:
each handler of the source becomes a Lean function on `ClientState`, and the
single-threaded await-based control flow of the two public operations becomes
sequential composition that stops with a `hang` outcome whenever a promise
would never resolve.  Platform primitives that are not repository code
(EventSource, fetch, URL resolution, JSON.parse of the topic text) are
modelled abstractly: the network is a `Server` oracle, URL resolution is an
uninterpreted string operation whose value no property depends on, and the
topic parser is a function parameter.
-/

/-- Untyped JSON-ish values, the dynamic payloads of the wire protocol
(`params: any`, `result: any` in the source).  `num` is an integer, which
is all the claims need. -/
inductive Json where
  | null : Json
  | bool : Bool → Json
  | num : Int → Json
  | str : String → Json
  | arr : List Json → Json
  | obj : List (String × Json) → Json

/-- Property lookup `j.k` on a JSON value: a field of an object, and the
JavaScript `undefined` (here `none`) on every non-object or missing field. -/
def Json.getField? : Json → String → Option Json
  | .obj fields, k => fields.lookup k
  | _, _ => none

/-- JavaScript truthiness of a JSON value (used by `result.tools || []`):
objects and arrays are truthy, `null`/`false`/`0`/empty string are falsy. -/
def Json.truthy : Json → Bool
  | .null => false
  | .bool b => b
  | .num n => n != 0
  | .str s => s ≠ ""
  | .arr _ => true
  | .obj _ => true

/-- The error member of a response envelope (`error: { code, message }`). -/
structure RpcError where
  code : Int
  message : String

/-- An inbound push message parsed as a response envelope
(`JsonRpcResponse` in the source).  `id = none` models an absent `id`
member; `result = none` models an absent `result`. -/
structure JsonRpcResponse where
  id : Option Nat
  result : Option Json
  error : Option RpcError

/-- What happens to one pending call's continuation: `resolve(data.result)`
or `reject(new Error(data.error.message))`. -/
inductive CallOutcome where
  | success : Option Json → CallOutcome
  | failure : String → CallOutcome

/-- One HTTP POST performed by `sendRequest` (ghost history used by the
properties; the source does not keep such a log). -/
structure PostRecord where
  endpoint : String
  id : Nat
  method : String
  params : Json

/-- The mutable state of one `MCPClient` instance.  `eventSourceOpen`
models `eventSource !== null`, `pendingRequests` the key set of the
in-flight map (the continuations themselves are returned as explicit
`CallOutcome`s by the handler functions), and `postLog` is the ghost
history of HTTP POSTs issued so far. -/
structure ClientState where
  baseUrl : String
  eventSourceOpen : Bool
  sessionEndpoint : Option String
  requestId : Nat
  pendingRequests : List Nat
  postLog : List PostRecord

/-- The constructor `new MCPClient(url)`: all fields at their initial
values, the counter at 0. -/
def mkClient (url : String) : ClientState :=
  { baseUrl := url
    eventSourceOpen := false
    sessionEndpoint := none
    requestId := 0
    pendingRequests := []
    postLog := [] }

/-- `cleanup()` (source lines 151-158): close and null the stream handle,
clear the in-flight map, null the session endpoint.  The request counter is
not touched, and the ghost POST history is history. -/
def cleanup (st : ClientState) : ClientState :=
  { st with
    eventSourceOpen := false
    pendingRequests := []
    sessionEndpoint := none }

/-- Models the platform URL resolution `new URL(data, baseUrl).toString()`.
No claim depends on the resolved string, only on the endpoint being set. -/
def resolveUrl (base path : String) : String :=
  base ++ path

/-- The continuation dispatch of the `onmessage` handler: an envelope with
a truthy `error` rejects with the carried message, otherwise the call
resolves with the (possibly absent) `result`. -/
def responseOutcome (resp : JsonRpcResponse) : CallOutcome :=
  match resp.error with
  | some e => .failure e.message
  | none => .success resp.result

/-- The `onmessage` handler (source lines 95-106): if the envelope carries
an `id` that is a key of the in-flight map, invoke that call's continuation
(returned here as the `Option (Nat × CallOutcome)` component) and delete
the entry; otherwise do nothing. -/
def onMessage (st : ClientState) (resp : JsonRpcResponse) :
    ClientState × Option (Nat × CallOutcome) :=
  match resp.id with
  | none => (st, none)
  | some i =>
    if i ∈ st.pendingRequests then
      ({ st with pendingRequests := st.pendingRequests.filter (fun j => j ≠ i) },
        some (i, responseOutcome resp))
    else (st, none)

/-- The error message of the `onerror` handler. -/
def connFailMsg : String :=
  "Connection to MCP Server failed. Make sure 'fastmcp run mcp_server.py' is running on port 8000."

/-- The `onerror` handler (source lines 74-80): only when the session
endpoint is not yet known does it clean up and surface an error through the
`connect` callback (the `Option String` component); once the endpoint is
known it does nothing at all — no continuation is invoked and no state
changes. -/
def onError (st : ClientState) : ClientState × Option String :=
  if st.sessionEndpoint = none then (cleanup st, some connFailMsg)
  else (st, none)

/-- The server as an oracle of the two-channel transport: for the POST of
request `id` with `method` and `params`, the envelope the server pushes
back on the stream, or `none` when it never responds. -/
def Server : Type :=
  Nat → String → Json → Option JsonRpcResponse

/-- Outcome of an awaited client step: the promise resolved, rejected with
an error message, or never settles (the source has no timeout). -/
inductive Res (α : Type) where
  | ok : α → Res α
  | err : String → Res α
  | hang : Res α

/-- The issuing half of `sendRequest` (source lines 128-146): consume the
current counter value as the identifier, store the continuation in the
in-flight map, and POST the envelope to the session endpoint. -/
def issueRequest (st : ClientState) (endp method : String) (params : Json) :
    ClientState :=
  { st with
    requestId := st.requestId + 1
    pendingRequests := st.pendingRequests ++ [st.requestId]
    postLog := st.postLog ++ [⟨endp, st.requestId, method, params⟩] }

/-- `sendRequest(method, params)` followed by awaiting its promise
(source lines 125-148).  Before the endpoint is known it throws
"Session not established" without consuming an identifier, storing a
continuation or POSTing.  Otherwise the request is issued and the server's
pushed envelope (if any) is run through the `onmessage` handler; the await
resolves only if that dispatch hits this very call's identifier. -/
def sendRequestAwait (sv : Server) (st : ClientState) (method : String)
    (params : Json) : ClientState × Res (Option Json) :=
  match st.sessionEndpoint with
  | none => (st, .err "Session not established")
  | some endp =>
    let id := st.requestId
    let st1 := issueRequest st endp method params
    match sv id method params with
    | none => (st1, .hang)
    | some resp =>
      match onMessage st1 resp with
      | (st2, some (j, out)) =>
        if j = id then
          match out with
          | .success r => (st2, .ok r)
          | .failure m => (st2, .err m)
        else (st2, .hang)
      | (st2, none) => (st2, .hang)

/-- The params of the `initialize` handshake call. -/
def initParams : Json :=
  Json.obj
    [("protocolVersion", Json.str "2024-11-05"),
     ("capabilities", Json.obj []),
     ("clientInfo", Json.obj
        [("name", Json.str "debate-web-client"),
         ("version", Json.str "1.0")])]

/-- `initializeSession()` (source lines 109-116): await the `initialize`
call, and only once it resolves, send and await
`notifications/initialized`. -/
def initializeSession (sv : Server) (st : ClientState) :
    ClientState × Res Unit :=
  match sendRequestAwait sv st "initialize" initParams with
  | (st1, .ok _) =>
    match sendRequestAwait sv st1 "notifications/initialized" (Json.obj []) with
    | (st2, .ok _) => (st2, .ok ())
    | (st2, .err m) => (st2, .err m)
    | (st2, .hang) => (st2, .hang)
  | (st1, .err m) => (st1, .err m)
  | (st1, .hang) => (st1, .hang)

/-- `callTool(name, args)` (source lines 118-123). -/
def callTool (sv : Server) (st : ClientState) (name : String) (args : Json) :
    ClientState × Res (Option Json) :=
  sendRequestAwait sv st "tools/call"
    (Json.obj [("name", Json.str name), ("arguments", args)])

/-- What the connect phase observes from the transport: the EventSource
constructor throws, a stream error fires before any endpoint event, or the
one-time endpoint event arrives carrying a path. -/
inductive ConnectEvent where
  | ctorFail : ConnectEvent
  | streamError : ConnectEvent
  | endpoint : String → ConnectEvent

/-- `connect(callback)` (source lines 67-107) driven up to the callback:
constructor failure reports an error with nothing opened; a stream error
before the endpoint is known runs the `onerror` cleanup-and-report path;
the endpoint event derives and stores the session address and runs the
handshake, cleaning up when the handshake rejects.  A stream error after
the endpoint is known never invokes the callback. -/
def connectAndInit (sv : Server) (ev : ConnectEvent) (st : ClientState) :
    ClientState × Res Unit :=
  match ev with
  | .ctorFail => (st, .err "Failed to create EventSource. Is the server running?")
  | .streamError =>
    let stO := { st with eventSourceOpen := true }
    match onError stO with
    | (stE, some m) => (stE, .err m)
    | (stE, none) => (stE, .hang)
  | .endpoint data =>
    let stO := { st with eventSourceOpen := true }
    let stE := { stO with sessionEndpoint := some (resolveUrl stO.baseUrl data) }
    match initializeSession sv stE with
    | (st1, .ok _) => (st1, .ok ())
    | (st1, .err m) => (cleanup st1, .err m)
    | (st1, .hang) => (st1, .hang)

/-- Is a content entry text-typed (the test `c.type === 'text'` of the
find callback, for an entry on which the property access succeeds — every
JSON value except `null`, on which JavaScript throws instead)? -/
def isTextItem (c : Json) : Bool :=
  match c.getField? "type" with
  | some (.str s) => s = "text"
  | _ => false

/-- Outcome of running `content.find(c => c.type === 'text')`: the first
text-typed entry, no match after scanning the whole array, or a TypeError
thrown by the callback when it reaches a `null` entry (property access on
`null` throws) before any text-typed one. -/
inductive FindOutcome where
  | found : Json → FindOutcome
  | noMatch : FindOutcome
  | throwErr : FindOutcome

/-- The left-to-right scan of `content.find(c => c.type === 'text')`,
including the throwing behaviour of the callback on a `null` entry. -/
def findTextItem : List Json → FindOutcome
  | [] => .noMatch
  | Json.null :: _ => .throwErr
  | c :: rest => if isTextItem c then .found c else findTextItem rest

/-- Result of the content-extraction step of `getDebateTopic` (source
lines 35-36).  `accessError` models the TypeError of the unguarded access:
the result is absent, its `content` member is not an array, or the find
callback reached a `null` entry; `noTextEntry` is the explicitly thrown
"No content in tool response". -/
inductive ExtractResult where
  | found : Json → ExtractResult
  | noTextEntry : ExtractResult
  | accessError : ExtractResult

/-- The content-extraction step: `result.content.find(c => c.type === 'text')`
followed by the `if (!contentItem) throw` guard. -/
def extractContent (result : Option Json) : ExtractResult :=
  match result with
  | none => .accessError
  | some j =>
    match j.getField? "content" with
    | some (.arr items) =>
      match findTextItem items with
      | .found item => .found item
      | .noMatch => .noTextEntry
      | .throwErr => .accessError
    | _ => .accessError

/-- `getDebateTopic()` (source lines 28-47): connect and handshake, call
the `get_debate_topic` tool, extract the first text-typed content entry,
parse its text (`parse` stands for the platform `JSON.parse`, applied to
the possibly-absent `text` member), clean up, and resolve with the parsed
payload; every rejection path cleans up first. -/
def getDebateTopic (sv : Server) (ev : ConnectEvent)
    (parse : Option Json → Option Json) (st : ClientState) :
    ClientState × Res Json :=
  match connectAndInit sv ev st with
  | (st1, .err m) => (st1, .err m)
  | (st1, .hang) => (st1, .hang)
  | (st1, .ok _) =>
    match callTool sv st1 "get_debate_topic" (Json.obj []) with
    | (st2, .hang) => (st2, .hang)
    | (st2, .err m) => (cleanup st2, .err m)
    | (st2, .ok result) =>
      match extractContent result with
      | .accessError => (cleanup st2, .err "TypeError: cannot read content")
      | .noTextEntry => (cleanup st2, .err "No content in tool response")
      | .found item =>
        match parse (item.getField? "text") with
        | some payload => (cleanup st2, .ok payload)
        | none => (cleanup st2, .err "SyntaxError: topic text is not valid JSON")

/-- `listTools()` (source lines 49-65): connect and handshake, call
`tools/list`, resolve with `result.tools || []` (a TypeError when the
result itself is absent or JSON null, on which the property access
throws), cleaning up on every path that settles. -/
def listTools (sv : Server) (ev : ConnectEvent) (st : ClientState) :
    ClientState × Res Json :=
  match connectAndInit sv ev st with
  | (st1, .err m) => (st1, .err m)
  | (st1, .hang) => (st1, .hang)
  | (st1, .ok _) =>
    match sendRequestAwait sv st1 "tools/list" (Json.obj []) with
    | (st2, .hang) => (st2, .hang)
    | (st2, .err m) => (cleanup st2, .err m)
    | (st2, .ok result) =>
      match result with
      | none => (cleanup st2, .err "TypeError: cannot read tools")
      | some Json.null => (cleanup st2, .err "TypeError: cannot read tools")
      | some j =>
        match j.getField? "tools" with
        | some t =>
          if t.truthy then (cleanup st2, .ok t)
          else (cleanup st2, .ok (Json.arr []))
        | none => (cleanup st2, .ok (Json.arr []))

/-- Deliver a list of push messages through the `onmessage` handler in
order, collecting every continuation invocation. -/
def deliverAll (st : ClientState) (rs : List JsonRpcResponse) :
    ClientState × List (Nat × CallOutcome) :=
  match rs with
  | [] => (st, [])
  | r :: rest =>
    ((deliverAll (onMessage st r).1 rest).1,
      (onMessage st r).2.toList ++ (deliverAll (onMessage st r).1 rest).2)

/-- A client state whose stream is closed, whose in-flight map is empty and
whose session address is cleared — the state `cleanup` establishes and the
state a fresh client starts in. -/
def cleanedState (st : ClientState) : Prop :=
  st.eventSourceOpen = false ∧ st.pendingRequests = [] ∧ st.sessionEndpoint = none

lemma onMessage_preserves (st : ClientState) (r : JsonRpcResponse) :
    (onMessage st r).1.postLog = st.postLog ∧
    (onMessage st r).1.sessionEndpoint = st.sessionEndpoint ∧
    (onMessage st r).1.requestId = st.requestId ∧
    (onMessage st r).1.baseUrl = st.baseUrl ∧
    (onMessage st r).1.eventSourceOpen = st.eventSourceOpen := by
  unfold onMessage
  cases r.id with
  | none => exact ⟨rfl, rfl, rfl, rfl, rfl⟩
  | some i =>
    by_cases h : i ∈ st.pendingRequests
    · simp [h]
    · simp [h]

lemma onMessage_pending_subset (st : ClientState) (r : JsonRpcResponse) (i : Nat)
    (h : i ∈ (onMessage st r).1.pendingRequests) : i ∈ st.pendingRequests := by
  cases hid : r.id with
  | none => simp only [onMessage, hid] at h; exact h
  | some j =>
    by_cases hj : j ∈ st.pendingRequests
    · simp only [onMessage, hid, if_pos hj] at h
      exact (List.mem_filter.mp h).1
    · simp only [onMessage, hid, if_neg hj] at h
      exact h

lemma onMessage_pending_of_ne (st : ClientState) (r : JsonRpcResponse) (i : Nat)
    (hi : i ∈ st.pendingRequests) (hne : r.id ≠ some i) :
    i ∈ (onMessage st r).1.pendingRequests := by
  cases hid : r.id with
  | none => simp only [onMessage, hid]; exact hi
  | some j =>
    by_cases hj : j ∈ st.pendingRequests
    · simp only [onMessage, hid, if_pos hj]
      refine List.mem_filter.mpr ⟨hi, ?_⟩
      simp only [decide_eq_true_eq]
      intro hij
      exact hne (by rw [hid, hij])
    · simp only [onMessage, hid, if_neg hj]
      exact hi

lemma onMessage_out_spec (st : ClientState) (r : JsonRpcResponse) (j : Nat)
    (o : CallOutcome) (h : (onMessage st r).2 = some (j, o)) :
    r.id = some j ∧ j ∈ st.pendingRequests ∧ o = responseOutcome r ∧
      j ∉ (onMessage st r).1.pendingRequests := by
  cases hid : r.id with
  | none => simp [onMessage, hid] at h
  | some i =>
    by_cases hj : i ∈ st.pendingRequests
    · simp only [onMessage, hid, if_pos hj] at h ⊢
      have h2 : (i, responseOutcome r) = (j, o) := Option.some.inj h
      have hij : i = j := congrArg Prod.fst h2
      have ho : responseOutcome r = o := congrArg Prod.snd h2
      subst hij
      refine ⟨rfl, hj, ho.symm, ?_⟩
      intro hmem
      have hm := List.mem_filter.mp hmem
      simp only [decide_eq_true_eq] at hm
      exact hm.2 rfl
    · simp [onMessage, hid, hj] at h

lemma deliverAll_cons (st : ClientState) (r : JsonRpcResponse)
    (rest : List JsonRpcResponse) :
    deliverAll st (r :: rest) =
      ((deliverAll (onMessage st r).1 rest).1,
        (onMessage st r).2.toList ++ (deliverAll (onMessage st r).1 rest).2) := rfl

lemma deliverAll_not_pending (rs : List JsonRpcResponse) (st : ClientState)
    (i : Nat) (h : i ∉ st.pendingRequests) :
    (deliverAll st rs).2.filter (fun o => o.1 = i) = [] ∧
      i ∉ (deliverAll st rs).1.pendingRequests := by
  induction rs generalizing st with
  | nil => exact ⟨rfl, h⟩
  | cons r rest ih =>
    rw [deliverAll_cons]
    have hst1 : i ∉ (onMessage st r).1.pendingRequests := fun hmem =>
      h (onMessage_pending_subset st r i hmem)
    obtain ⟨ih1, ih2⟩ := ih (onMessage st r).1 hst1
    refine ⟨?_, ih2⟩
    rw [List.filter_append, ih1, List.append_nil]
    cases ho : (onMessage st r).2 with
    | none => rfl
    | some p =>
      obtain ⟨j, o⟩ := p
      obtain ⟨_, hjmem, _, _⟩ := onMessage_out_spec st r j o ho
      have hji : j ≠ i := fun hji => h (hji ▸ hjmem)
      simp [Option.toList, hji]

/-- C1: for any set of pending calls on one session and any batch of pushed
responses with pairwise-distinct identifiers, a pending call whose
identifier is answered by some response in the batch has its continuation
invoked exactly once — with the outcome (resolve with the result, or reject
with the carried error message) determined purely by that matching
response, independently of where in the arrival order it sits — and its
entry is removed from the in-flight map. -/
theorem C1_dispatch_exactly_once (st : ClientState) (rs : List JsonRpcResponse)
    (i : Nat) (r : JsonRpcResponse)
    (hp : i ∈ st.pendingRequests)
    (hr : r ∈ rs) (hid : r.id = some i)
    (hnd : (rs.filterMap (fun x => x.id)).Nodup) :
    (deliverAll st rs).2.filter (fun o => o.1 = i) = [(i, responseOutcome r)] ∧
      i ∉ (deliverAll st rs).1.pendingRequests := by
  induction rs generalizing st with
  | nil => cases hr
  | cons r0 rest ih =>
    rw [deliverAll_cons]
    rcases List.mem_cons.mp hr with hEq | hMem
    · subst hEq
      have hm : onMessage st r =
          ({ st with pendingRequests := st.pendingRequests.filter (fun j => j ≠ i) },
            some (i, responseOutcome r)) := by
        simp only [onMessage, hid, if_pos hp]
      have hni : i ∉ st.pendingRequests.filter (fun j => j ≠ i) := by
        intro hmem
        have hm2 := List.mem_filter.mp hmem
        simp only [decide_eq_true_eq] at hm2
        exact hm2.2 rfl
      obtain ⟨hrest1, hrest2⟩ :=
        deliverAll_not_pending rest (onMessage st r).1 i (by rw [hm]; exact hni)
      refine ⟨?_, hrest2⟩
      rw [List.filter_append, hrest1, List.append_nil, hm]
      simp [Option.toList]
    · have hr0ne : r0.id ≠ some i := by
        intro hcontra
        have hfm : (r0 :: rest).filterMap (fun x => x.id) =
            i :: rest.filterMap (fun x => x.id) := by
          simp [List.filterMap_cons, hcontra]
        rw [hfm] at hnd
        exact (List.nodup_cons.mp hnd).1
          (List.mem_filterMap.mpr ⟨r, hMem, hid⟩)
      have htail : (rest.filterMap (fun x => x.id)).Nodup := by
        cases h0 : r0.id with
        | none => rwa [List.filterMap_cons, h0] at hnd
        | some j =>
          rw [List.filterMap_cons, h0] at hnd
          exact (List.nodup_cons.mp hnd).2
      have hiIn : i ∈ (onMessage st r0).1.pendingRequests :=
        onMessage_pending_of_ne st r0 i hp hr0ne
      obtain ⟨ih1, ih2⟩ := ih (onMessage st r0).1 hiIn hMem htail
      refine ⟨?_, ih2⟩
      rw [List.filter_append, ih1]
      cases ho : (onMessage st r0).2 with
      | none => simp [Option.toList]
      | some p =>
        obtain ⟨j, o⟩ := p
        obtain ⟨hjid, _, _, _⟩ := onMessage_out_spec st r0 j o ho
        have hji : j ≠ i := fun hji => hr0ne (by rw [hjid, hji])
        simp [Option.toList, hji]

/-- A session state with three calls in flight, identifiers 0, 1 and 2. -/
def stThreePending : ClientState :=
  { mkClient "http://localhost:8000" with
    eventSourceOpen := true
    sessionEndpoint := some "http://localhost:8000/messages/abc"
    requestId := 3
    pendingRequests := [0, 1, 2] }

/-- The response answering call 0. -/
def respZero : JsonRpcResponse :=
  ⟨some 0, some (Json.str "a"), none⟩

/-- Responses for the three in-flight calls, delivered in reverse order of
issuance; call 1 is answered with an error envelope. -/
def respReversed : List JsonRpcResponse :=
  [⟨some 2, some (Json.str "c"), none⟩,
   ⟨some 1, none, some ⟨-1, "boom"⟩⟩,
   respZero]

theorem C1_dispatch_exactly_once_witness :
    0 ∈ stThreePending.pendingRequests ∧
    respZero ∈ respReversed ∧
    respZero.id = some 0 ∧
    (respReversed.filterMap (fun x => x.id)).Nodup ∧
    ((deliverAll stThreePending respReversed).2.filter (fun o => o.1 = 0) =
        [(0, responseOutcome respZero)] ∧
      0 ∉ (deliverAll stThreePending respReversed).1.pendingRequests) :=
  ⟨by decide,
   by simp [respReversed],
   rfl,
   by decide,
   C1_dispatch_exactly_once stThreePending respReversed 0 respZero
     (by decide) (by simp [respReversed]) rfl (by decide)⟩

/-- C3: a call issued while the session endpoint is not yet known fails
with the "Session not established" error, and the client state is entirely
unchanged: no HTTP POST is recorded, no pending entry is created, and the
identifier counter is not consumed. -/
theorem C3_call_without_session (sv : Server) (st : ClientState)
    (method : String) (params : Json) (h : st.sessionEndpoint = none) :
    sendRequestAwait sv st method params = (st, Res.err "Session not established") ∧
    (sendRequestAwait sv st method params).1.postLog = st.postLog ∧
    (sendRequestAwait sv st method params).1.pendingRequests = st.pendingRequests ∧
    (sendRequestAwait sv st method params).1.requestId = st.requestId := by
  have he : sendRequestAwait sv st method params = (st, Res.err "Session not established") := by
    simp only [sendRequestAwait, h]
  exact ⟨he, by rw [he], by rw [he], by rw [he]⟩

theorem C3_call_without_session_witness :
    (mkClient "http://localhost:8000").sessionEndpoint = none ∧
    sendRequestAwait (fun _ _ _ => none) (mkClient "http://localhost:8000")
        "tools/list" (Json.obj []) =
      (mkClient "http://localhost:8000", Res.err "Session not established") :=
  ⟨rfl,
   (C3_call_without_session (fun _ _ _ => none) (mkClient "http://localhost:8000")
     "tools/list" (Json.obj []) rfl).1⟩

/-- C9: an inbound push message whose identifier is absent, or matches no
entry of the in-flight map, is ignored: no continuation is invoked and the
whole client state — in-flight map, session address, identifier counter —
is unchanged. -/
theorem C9_unmatched_message_ignored (st : ClientState) (resp : JsonRpcResponse)
    (h : ∀ i, resp.id = some i → i ∉ st.pendingRequests) :
    onMessage st resp = (st, none) := by
  cases hid : resp.id with
  | none => simp only [onMessage, hid]
  | some i => simp only [onMessage, hid, if_neg (h i hid)]

theorem C9_unmatched_message_ignored_witness :
    (∀ i, (⟨some 7, some (Json.str "late"), none⟩ : JsonRpcResponse).id = some i →
        i ∉ stThreePending.pendingRequests) ∧
    onMessage stThreePending ⟨some 7, some (Json.str "late"), none⟩ =
      (stThreePending, none) :=
  ⟨by decide,
   C9_unmatched_message_ignored stThreePending
     ⟨some 7, some (Json.str "late"), none⟩ (by decide)⟩

/-- C6 (amended): a stream-level error before the endpoint event fails the
session — state cleaned up, a descriptive error surfaced to the caller —
whereas a stream-level error once the endpoint is known is ignored
entirely: the session does not fail, but the already-in-flight calls are
not failed either; the handler leaves the whole state, the in-flight map
included, unchanged and invokes no continuation. -/
theorem C6_stream_error_handling (st : ClientState) (sv : Server)
    (parse : Option Json → Option Json) :
    (st.sessionEndpoint = none →
      onError st = (cleanup st, some connFailMsg)) ∧
    (st.sessionEndpoint = none →
      getDebateTopic sv ConnectEvent.streamError parse st =
        (cleanup { st with eventSourceOpen := true }, Res.err connFailMsg)) ∧
    (st.sessionEndpoint ≠ none → onError st = (st, none)) := by
  refine ⟨fun h => by simp only [onError, if_pos h], fun h => ?_, fun h => by
    simp only [onError, if_neg h]⟩
  have hO : onError { st with eventSourceOpen := true } =
      (cleanup { st with eventSourceOpen := true }, some connFailMsg) := by
    simp only [onError]
    rw [if_pos (show ({ st with eventSourceOpen := true } : ClientState).sessionEndpoint = none from h)]
  simp only [getDebateTopic, connectAndInit, hO]

/-- C6, refutation of the claim as stated: with the session endpoint known
and call 2 in flight, the error handler does nothing — it surfaces no
error but also does not treat the error as a failure of the in-flight
call, whose entry stays pending with no continuation invoked. -/
theorem C6_stream_error_counterexample :
    (stThreePending.sessionEndpoint = some "http://localhost:8000/messages/abc") ∧
    onError stThreePending = (stThreePending, none) ∧
    (onError stThreePending).1.pendingRequests = [0, 1, 2] := by
  refine ⟨rfl, ?_, ?_⟩ <;> simp [onError, stThreePending, mkClient]

theorem C6_stream_error_handling_witness :
    ((mkClient "http://localhost:8000").sessionEndpoint = none ∧
      onError (mkClient "http://localhost:8000") =
        (cleanup (mkClient "http://localhost:8000"), some connFailMsg)) ∧
    (stThreePending.sessionEndpoint ≠ none ∧
      onError stThreePending = (stThreePending, none)) :=
  ⟨⟨rfl, (C6_stream_error_handling (mkClient "http://localhost:8000")
      (fun _ _ _ => none) (fun _ => none)).1 rfl⟩,
   ⟨by decide, (C6_stream_error_handling stThreePending
      (fun _ _ _ => none) (fun _ => none)).2.2 (by decide)⟩⟩

lemma findTextItem_eq_noMatch (items : List Json) :
    findTextItem items = FindOutcome.noMatch ↔
      ∀ c ∈ items, c ≠ Json.null ∧ isTextItem c = false := by
  induction items with
  | nil => simp [findTextItem]
  | cons c rest ih =>
    cases c with
    | null => simp [findTextItem]
    | bool b =>
      have he : findTextItem (Json.bool b :: rest) =
          if isTextItem (Json.bool b) then FindOutcome.found (Json.bool b)
          else findTextItem rest := rfl
      rw [he]
      by_cases ht : isTextItem (Json.bool b) <;>
        simp [ht, List.forall_mem_cons, ih]
    | num n =>
      have he : findTextItem (Json.num n :: rest) =
          if isTextItem (Json.num n) then FindOutcome.found (Json.num n)
          else findTextItem rest := rfl
      rw [he]
      by_cases ht : isTextItem (Json.num n) <;>
        simp [ht, List.forall_mem_cons, ih]
    | str t =>
      have he : findTextItem (Json.str t :: rest) =
          if isTextItem (Json.str t) then FindOutcome.found (Json.str t)
          else findTextItem rest := rfl
      rw [he]
      by_cases ht : isTextItem (Json.str t) <;>
        simp [ht, List.forall_mem_cons, ih]
    | arr xs =>
      have he : findTextItem (Json.arr xs :: rest) =
          if isTextItem (Json.arr xs) then FindOutcome.found (Json.arr xs)
          else findTextItem rest := rfl
      rw [he]
      by_cases ht : isTextItem (Json.arr xs) <;>
        simp [ht, List.forall_mem_cons, ih]
    | obj fs =>
      have he : findTextItem (Json.obj fs :: rest) =
          if isTextItem (Json.obj fs) then FindOutcome.found (Json.obj fs)
          else findTextItem rest := rfl
      rw [he]
      by_cases ht : isTextItem (Json.obj fs) <;>
        simp [ht, List.forall_mem_cons, ih]

/-- C10 (amended): the "No content in tool response" branch of the
content-extraction step is reached exactly when the tool result carries a
`content` member that is an array in which every entry is non-null (so the
find callback's property access succeeds on all of them) and none is
text-typed; a result that is absent, whose `content` member is missing or
not an array, or whose content array makes the find callback reach a
`null` entry, instead fails at the unguarded access itself (a TypeError)
and never reaches that branch. -/
theorem C10_no_content_error_reachability (result : Option Json) :
    (extractContent result = ExtractResult.noTextEntry ↔
      ∃ j items, result = some j ∧
        j.getField? "content" = some (Json.arr items) ∧
        ∀ c ∈ items, c ≠ Json.null ∧ isTextItem c = false) ∧
    (extractContent none = ExtractResult.accessError) ∧
    (∀ j, result = some j → j.getField? "content" = none →
      extractContent result = ExtractResult.accessError) := by
  refine ⟨?_, rfl, ?_⟩
  · constructor
    · intro h
      cases hres : result with
      | none => rw [hres] at h; exact absurd h (by simp [extractContent])
      | some j =>
        rw [hres] at h
        cases hc : j.getField? "content" with
        | none => simp [extractContent, hc] at h
        | some c =>
          cases c with
          | arr items =>
            cases hf : findTextItem items with
            | noMatch =>
              exact ⟨j, items, rfl, hc, (findTextItem_eq_noMatch items).mp hf⟩
            | found it => simp [extractContent, hc, hf] at h
            | throwErr => simp [extractContent, hc, hf] at h
          | null => simp [extractContent, hc] at h
          | bool b => simp [extractContent, hc] at h
          | num n => simp [extractContent, hc] at h
          | str s => simp [extractContent, hc] at h
          | obj fs => simp [extractContent, hc] at h
    · rintro ⟨j, items, hres, hc, hall⟩
      have hf : findTextItem items = FindOutcome.noMatch :=
        (findTextItem_eq_noMatch items).mpr hall
      rw [hres]
      simp [extractContent, hc, hf]
  · intro j hres hc
    rw [hres]
    simp [extractContent, hc]

/-- C10, refutation of the claim as stated: for a tool result whose content
array is `[null]`, the array is present and contains no text-typed entry,
yet the descriptive "No content in tool response" error is not raised —
the find callback's unguarded property access on the `null` entry throws a
TypeError instead. -/
theorem C10_no_content_error_counterexample :
    (Json.obj [("content", Json.arr [Json.null])]).getField? "content" =
      some (Json.arr [Json.null]) ∧
    (∀ c ∈ [Json.null], isTextItem c = false) ∧
    extractContent (some (Json.obj [("content", Json.arr [Json.null])])) =
      ExtractResult.accessError ∧
    extractContent (some (Json.obj [("content", Json.arr [Json.null])])) ≠
      ExtractResult.noTextEntry :=
  ⟨rfl,
   fun c hc => by
     have hcn : c = Json.null := by simpa using hc
     subst hcn
     rfl,
   rfl,
   fun h => ExtractResult.noConfusion h⟩

theorem C10_no_content_error_reachability_witness :
    extractContent (some (Json.obj
        [("content", Json.arr [Json.obj [("type", Json.str "image")]])])) =
      ExtractResult.noTextEntry :=
  (C10_no_content_error_reachability _).1.mpr
    ⟨Json.obj [("content", Json.arr [Json.obj [("type", Json.str "image")]])],
     [Json.obj [("type", Json.str "image")]], rfl, rfl,
     by
       intro c hc
       have hcn : c = Json.obj [("type", Json.str "image")] := by simpa using hc
       subst hcn
       exact ⟨fun hnull => Json.noConfusion hnull, rfl⟩⟩

/-- The topic text of the round-trip scenario:
a JSON object with title "X", description "Y", code "Z" and empty script. -/
def topicText : String :=
  "\x7b\"title\":\"X\",\"description\":\"Y\",\"code\":\"Z\",\"script\":[]\x7d"

/-- The payload `JSON.parse` produces from `topicText`. -/
def topicPayload : Json :=
  Json.obj
    [("title", Json.str "X"), ("description", Json.str "Y"),
     ("code", Json.str "Z"), ("script", Json.arr [])]

/-- A server that answers every handshake call with an empty result and the
`tools/call` request with a result whose `content` is one text-typed entry
holding `topicText`, always echoing the request identifier. -/
def happyServer : Server := fun id method _ =>
  if method = "tools/call" then
    some ⟨some id,
      some (Json.obj
        [("content", Json.arr
          [Json.obj [("type", Json.str "text"), ("text", Json.str topicText)]])]),
      none⟩
  else some ⟨some id, some (Json.obj []), none⟩

/-- A concrete stand-in for the platform `JSON.parse`, defined on exactly
the topic text (used to instantiate parse-generic theorems). -/
def parseTopic : Option Json → Option Json := fun x =>
  match x with
  | some (Json.str s) => if s = topicText then some topicPayload else none
  | _ => none


/-- The client state after the round-trip against `happyServer`: stream
closed, session cleared, three identifiers consumed, and the POST history
showing the two handshake calls followed by the tool call. -/
def finalStateC2 (base data : String) : ClientState :=
  { baseUrl := base
    eventSourceOpen := false
    sessionEndpoint := none
    requestId := 3
    pendingRequests := []
    postLog :=
      [⟨base ++ data, 0, "initialize", initParams⟩,
       ⟨base ++ data, 1, "notifications/initialized", Json.obj []⟩,
       ⟨base ++ data, 2, "tools/call",
         Json.obj [("name", Json.str "get_debate_topic"),
                   ("arguments", Json.obj [])]⟩] }

lemma getDebateTopic_happyServer (parse : Option Json → Option Json)
    (base data : String) :
    getDebateTopic happyServer (ConnectEvent.endpoint data) parse (mkClient base) =
      match parse (some (Json.str topicText)) with
      | some payload => (finalStateC2 base data, Res.ok payload)
      | none => (finalStateC2 base data,
          Res.err "SyntaxError: topic text is not valid JSON") := rfl

/-- C2: against a server that, after the handshake, answers the `tools/call`
request with a result whose content is one text-typed entry holding the
topic text, `getDebateTopic` resolves with exactly the payload the
platform parser produces from that text — the first text-typed content
entry, parsed as JSON — and the returned state has the stream closed, the
in-flight map empty and the session address cleared (teardown happened
before resolving). -/
theorem C2_fetchTopic_roundtrip (parse : Option Json → Option Json)
    (hp : parse (some (Json.str topicText)) = some topicPayload)
    (base data : String) :
    getDebateTopic happyServer (ConnectEvent.endpoint data) parse (mkClient base) =
      (finalStateC2 base data, Res.ok topicPayload) ∧
    (finalStateC2 base data).eventSourceOpen = false ∧
    (finalStateC2 base data).pendingRequests = [] ∧
    (finalStateC2 base data).sessionEndpoint = none :=
  ⟨by rw [getDebateTopic_happyServer, hp], rfl, rfl, rfl⟩

theorem C2_fetchTopic_roundtrip_witness :
    parseTopic (some (Json.str topicText)) = some topicPayload ∧
    getDebateTopic happyServer (ConnectEvent.endpoint "/messages/abc") parseTopic
        (mkClient "http://localhost:8000") =
      (finalStateC2 "http://localhost:8000" "/messages/abc", Res.ok topicPayload) :=
  ⟨rfl,
   (C2_fetchTopic_roundtrip parseTopic rfl "http://localhost:8000" "/messages/abc").1⟩

lemma cleanup_cleaned (st : ClientState) : cleanedState (cleanup st) :=
  ⟨rfl, rfl, rfl⟩


lemma connectAndInit_err_cleaned (sv : Server) (ev : ConnectEvent)
    (st : ClientState) (h0 : cleanedState st) (m : String)
    (h : (connectAndInit sv ev st).2 = Res.err m) :
    cleanedState (connectAndInit sv ev st).1 := by
  cases ev with
  | ctorFail => exact h0
  | streamError =>
    have hO : onError { st with eventSourceOpen := true } =
        (cleanup { st with eventSourceOpen := true }, some connFailMsg) := by
      simp only [onError]
      rw [if_pos (show ({ st with eventSourceOpen := true } : ClientState).sessionEndpoint
        = none from h0.2.2)]
    simp only [connectAndInit, hO]
    exact cleanup_cleaned _
  | endpoint data =>
    rcases hi : initializeSession sv
        { st with
          eventSourceOpen := true
          sessionEndpoint := some (resolveUrl st.baseUrl data) } with ⟨st1, r1⟩
    cases r1 with
    | ok u =>
      simp only [connectAndInit, hi] at h
      exact Res.noConfusion h
    | hang =>
      simp only [connectAndInit, hi] at h
      exact Res.noConfusion h
    | err m2 =>
      simp only [connectAndInit, hi]
      exact cleanup_cleaned _

/-- C5: whenever either public operation settles — resolves, rejects with a
protocol error, or rejects with a transport error — the state it returns
to the caller has the stream closed, the in-flight map empty and the
session address cleared; and `cleanup` itself always establishes exactly
that postcondition. -/
theorem C5_teardown_on_every_exit (sv : Server) (ev : ConnectEvent)
    (parse : Option Json → Option Json) (st : ClientState)
    (h0 : cleanedState st) :
    ((getDebateTopic sv ev parse st).2 ≠ Res.hang →
      cleanedState (getDebateTopic sv ev parse st).1) ∧
    ((listTools sv ev st).2 ≠ Res.hang →
      cleanedState (listTools sv ev st).1) ∧
    (∀ s, cleanedState (cleanup s)) := by
  refine ⟨?_, ?_, cleanup_cleaned⟩
  · rcases hc : connectAndInit sv ev st with ⟨st1, r1⟩
    cases r1 with
    | err m =>
      simp only [getDebateTopic, hc]
      intro _
      have hcl := connectAndInit_err_cleaned sv ev st h0 m (by rw [hc])
      rwa [hc] at hcl
    | hang =>
      simp only [getDebateTopic, hc]
      exact fun hne => absurd rfl hne
    | ok u =>
      simp only [getDebateTopic, hc]
      rcases hct : callTool sv st1 "get_debate_topic" (Json.obj []) with ⟨st2, r2⟩
      cases r2 with
      | hang => exact fun hne => absurd rfl hne
      | err m => exact fun _ => cleanup_cleaned st2
      | ok result =>
        cases hex : extractContent result with
        | accessError => simp only [hex]; exact fun _ => cleanup_cleaned st2
        | noTextEntry => simp only [hex]; exact fun _ => cleanup_cleaned st2
        | found item =>
          simp only [hex]
          cases hp : parse (item.getField? "text") with
          | some payload => simp only [hp]; exact fun _ => cleanup_cleaned st2
          | none => simp only [hp]; exact fun _ => cleanup_cleaned st2
  · rcases hc : connectAndInit sv ev st with ⟨st1, r1⟩
    cases r1 with
    | err m =>
      simp only [listTools, hc]
      intro _
      have hcl := connectAndInit_err_cleaned sv ev st h0 m (by rw [hc])
      rwa [hc] at hcl
    | hang =>
      simp only [listTools, hc]
      exact fun hne => absurd rfl hne
    | ok u =>
      simp only [listTools, hc]
      rcases hsr : sendRequestAwait sv st1 "tools/list" (Json.obj []) with ⟨st2, r2⟩
      cases r2 with
      | hang => exact fun hne => absurd rfl hne
      | err m => exact fun _ => cleanup_cleaned st2
      | ok result =>
        cases result with
        | none => exact fun _ => cleanup_cleaned st2
        | some j =>
          cases j with
          | null => exact fun _ => cleanup_cleaned st2
          | bool b => exact fun _ => cleanup_cleaned st2
          | num n => exact fun _ => cleanup_cleaned st2
          | str s => exact fun _ => cleanup_cleaned st2
          | arr xs => exact fun _ => cleanup_cleaned st2
          | obj fs =>
            cases hj : (Json.obj fs).getField? "tools" with
            | none => simp only [hj]; exact fun _ => cleanup_cleaned st2
            | some t =>
              simp only [hj]
              by_cases ht : t.truthy
              · simp only [ht, if_true]
                exact fun _ => cleanup_cleaned st2
              · simp only [ht, if_false]
                exact fun _ => cleanup_cleaned st2

theorem C5_teardown_on_every_exit_witness :
    cleanedState (mkClient "http://localhost:8000") ∧
    cleanedState (getDebateTopic happyServer (ConnectEvent.endpoint "/messages/abc")
        parseTopic (mkClient "http://localhost:8000")).1 := by
  refine ⟨⟨rfl, rfl, rfl⟩, ?_⟩
  apply (C5_teardown_on_every_exit happyServer (ConnectEvent.endpoint "/messages/abc")
    parseTopic (mkClient "http://localhost:8000") ⟨rfl, rfl, rfl⟩).1
  intro hcontra
  have heq : (getDebateTopic happyServer (ConnectEvent.endpoint "/messages/abc")
      parseTopic (mkClient "http://localhost:8000")).2 = Res.ok topicPayload := rfl
  rw [heq] at hcontra
  exact Res.noConfusion hcontra


lemma sendRequestAwait_fields (sv : Server) (st : ClientState) (method : String)
    (params : Json) (endp : String) (h : st.sessionEndpoint = some endp) :
    (sendRequestAwait sv st method params).1.postLog =
        st.postLog ++ [⟨endp, st.requestId, method, params⟩] ∧
    (sendRequestAwait sv st method params).1.sessionEndpoint = some endp ∧
    (sendRequestAwait sv st method params).1.requestId = st.requestId + 1 := by
  simp only [sendRequestAwait, h]
  cases hsv : sv st.requestId method params with
  | none => exact ⟨rfl, h, rfl⟩
  | some resp =>
    have hpre := onMessage_preserves (issueRequest st endp method params) resp
    rcases hm : onMessage (issueRequest st endp method params) resp with ⟨st2, oo⟩
    rw [hm] at hpre
    have hres : st2.postLog = st.postLog ++ [⟨endp, st.requestId, method, params⟩] ∧
        st2.sessionEndpoint = some endp ∧ st2.requestId = st.requestId + 1 :=
      ⟨hpre.1, hpre.2.1.trans h, hpre.2.2.1⟩
    simp only [hm]
    cases oo with
    | none => exact hres
    | some p =>
      obtain ⟨j, o⟩ := p
      by_cases hj : j = st.requestId
      · cases o with
        | success r => simpa [hj] using hres
        | failure m => simpa [hj] using hres
      · simpa [hj] using hres

lemma sendRequestAwait_ok_inv (sv : Server) (st : ClientState) (method : String)
    (params : Json) (endp : String) (v : Option Json)
    (h : st.sessionEndpoint = some endp)
    (hok : (sendRequestAwait sv st method params).2 = Res.ok v) :
    ∃ resp, sv st.requestId method params = some resp ∧
      resp.id = some st.requestId ∧ resp.error = none ∧ v = resp.result := by
  simp only [sendRequestAwait, h] at hok
  cases hsv : sv st.requestId method params with
  | none => rw [hsv] at hok; exact Res.noConfusion hok
  | some resp =>
    rw [hsv] at hok
    rcases hm : onMessage (issueRequest st endp method params) resp with ⟨st2, oo⟩
    simp only [hm] at hok
    cases oo with
    | none => exact Res.noConfusion hok
    | some p =>
      obtain ⟨j, o⟩ := p
      cases o with
      | failure m =>
        by_cases hj : j = st.requestId
        · have h2 : (if j = st.requestId then ((st2 : ClientState), Res.err m)
              else (st2, Res.hang)).2 = Res.ok v := hok
          rw [if_pos hj] at h2
          exact Res.noConfusion h2
        · have h2 : (if j = st.requestId then ((st2 : ClientState), Res.err m)
              else (st2, Res.hang)).2 = Res.ok v := hok
          rw [if_neg hj] at h2
          exact Res.noConfusion h2
      | success r =>
        by_cases hj : j = st.requestId
        · have h2 : (if j = st.requestId then ((st2 : ClientState), Res.ok r)
              else (st2, Res.hang)).2 = Res.ok v := hok
          rw [if_pos hj] at h2
          have hv : r = v := Res.ok.inj h2
          have hout := onMessage_out_spec (issueRequest st endp method params) resp j
            (CallOutcome.success r) (by rw [hm])
          have hid : resp.id = some st.requestId := by rw [hout.1, hj]
          cases he : resp.error with
          | some e =>
            have hro := hout.2.2.1
            rw [responseOutcome, he] at hro
            have hro2 : CallOutcome.success r = CallOutcome.failure e.message := hro
            exact CallOutcome.noConfusion hro2
          | none =>
            have hro := hout.2.2.1
            rw [responseOutcome, he] at hro
            have hro2 : CallOutcome.success r = CallOutcome.success resp.result := hro
            have hr : r = resp.result := CallOutcome.success.inj hro2
            exact ⟨resp, rfl, hid, he, by rw [← hv, hr]⟩
        · have h2 : (if j = st.requestId then ((st2 : ClientState), Res.ok r)
              else (st2, Res.hang)).2 = Res.ok v := hok
          rw [if_neg hj] at h2
          exact Res.noConfusion h2

/-- The methods of the POSTs a step appended to the ghost history. -/
def newPosts (st st' : ClientState) : List String :=
  (st'.postLog.drop st.postLog.length).map (fun p => p.method)

/-- A client whose connect phase has just derived the session endpoint. -/
def stReady : ClientState :=
  { mkClient "http://localhost:8000" with
    eventSourceOpen := true
    sessionEndpoint := some "http://localhost:8000/messages/abc" }

/-- C4 (amended): the handshake is exactly two control calls issued
sequentially — `initialize` is POSTed first, and `notifications/initialized`
is not POSTed unless `initialize` resolved — but the second call is not
fire-and-forget: the handshake completes (the session becomes ready for the
caller's call) only if the server also pushed a correlated, non-error
response to `notifications/initialized`. -/
theorem C4_handshake_sequencing (sv : Server) (st : ClientState) (endp : String)
    (h : st.sessionEndpoint = some endp) :
    ((∀ v, (sendRequestAwait sv st "initialize" initParams).2 ≠ Res.ok v) →
      newPosts st (initializeSession sv st).1 = ["initialize"]) ∧
    ((initializeSession sv st).2 = Res.ok () →
      newPosts st (initializeSession sv st).1 =
        ["initialize", "notifications/initialized"] ∧
      ∃ resp, sv (st.requestId + 1) "notifications/initialized" (Json.obj []) =
          some resp ∧
        resp.id = some (st.requestId + 1) ∧ resp.error = none) := by
  rcases h1 : sendRequestAwait sv st "initialize" initParams with ⟨st1, r1⟩
  have hf1 := sendRequestAwait_fields sv st "initialize" initParams endp h
  rw [h1] at hf1
  cases r1 with
  | hang =>
    constructor
    · intro _
      simp only [initializeSession, h1, newPosts]
      rw [hf1.1, List.drop_left]
      rfl
    · intro habs
      simp only [initializeSession, h1] at habs
      exact Res.noConfusion habs
  | err m =>
    constructor
    · intro _
      simp only [initializeSession, h1, newPosts]
      rw [hf1.1, List.drop_left]
      rfl
    · intro habs
      simp only [initializeSession, h1] at habs
      exact Res.noConfusion habs
  | ok v =>
    constructor
    · intro hno
      exact absurd rfl (hno v)
    · intro hok2
      have hend1 : st1.sessionEndpoint = some endp := hf1.2.1
      rcases h2 : sendRequestAwait sv st1 "notifications/initialized" (Json.obj [])
        with ⟨st2, r2⟩
      have hf2 := sendRequestAwait_fields sv st1 "notifications/initialized"
        (Json.obj []) endp hend1
      rw [h2] at hf2
      cases r2 with
      | err m =>
        simp only [initializeSession, h1, h2] at hok2
        exact Res.noConfusion hok2
      | hang =>
        simp only [initializeSession, h1, h2] at hok2
        exact Res.noConfusion hok2
      | ok v2 =>
        simp only [initializeSession, h1, h2, newPosts]
        constructor
        · rw [hf2.1, hf1.1, List.append_assoc, List.drop_left]
          rfl
        · obtain ⟨resp, hsv2, hid2, herr2, _⟩ :=
            sendRequestAwait_ok_inv sv st1 "notifications/initialized" (Json.obj [])
              endp v2 hend1 (by rw [h2])
          rw [hf1.2.2] at hsv2 hid2
          exact ⟨resp, hsv2, hid2, herr2⟩

/-- A server that answers only the request with identifier 0. -/
def svInitOnly : Server := fun id _ _ =>
  if id = 0 then some ⟨some 0, some (Json.obj []), none⟩ else none

/-- C4, refutation of the fire-and-forget half of the claim as stated:
against a server that resolves `initialize` but never answers
`notifications/initialized`, both handshake POSTs go out and `initialize`
resolves, yet the session never becomes ready — the caller's callback is
never invoked because the client awaits a correlated response to
`notifications/initialized`. -/
theorem C4_handshake_sequencing_counterexample :
    (connectAndInit svInitOnly (ConnectEvent.endpoint "/messages/abc")
        (mkClient "http://localhost:8000")).2 = Res.hang ∧
    ((connectAndInit svInitOnly (ConnectEvent.endpoint "/messages/abc")
        (mkClient "http://localhost:8000")).1.postLog.map (fun p => p.method)) =
      ["initialize", "notifications/initialized"] ∧
    (sendRequestAwait svInitOnly
        { mkClient "http://localhost:8000" with
          eventSourceOpen := true
          sessionEndpoint := some "http://localhost:8000/messages/abc" }
        "initialize" initParams).2 = Res.ok (some (Json.obj [])) :=
  ⟨rfl, rfl, rfl⟩

theorem C4_handshake_sequencing_witness :
    stReady.sessionEndpoint = some "http://localhost:8000/messages/abc" ∧
    (initializeSession happyServer stReady).2 = Res.ok () ∧
    (newPosts stReady (initializeSession happyServer stReady).1 =
        ["initialize", "notifications/initialized"] ∧
      ∃ resp, happyServer (stReady.requestId + 1) "notifications/initialized"
          (Json.obj []) = some resp ∧
        resp.id = some (stReady.requestId + 1) ∧ resp.error = none) :=
  ⟨rfl, rfl,
   (C4_handshake_sequencing happyServer stReady "http://localhost:8000/messages/abc"
      rfl).2 rfl⟩

lemma initializeSession_postLog (sv : Server) (st : ClientState) (endp : String)
    (h : st.sessionEndpoint = some endp) :
    ∃ rest, (initializeSession sv st).1.postLog =
      st.postLog ++ ⟨endp, st.requestId, "initialize", initParams⟩ :: rest := by
  rcases h1 : sendRequestAwait sv st "initialize" initParams with ⟨st1, r1⟩
  have hf1 := sendRequestAwait_fields sv st "initialize" initParams endp h
  rw [h1] at hf1
  cases r1 with
  | hang =>
    refine ⟨[], ?_⟩
    simp only [initializeSession, h1]
    rw [hf1.1]
  | err m =>
    refine ⟨[], ?_⟩
    simp only [initializeSession, h1]
    rw [hf1.1]
  | ok v =>
    rcases h2 : sendRequestAwait sv st1 "notifications/initialized" (Json.obj [])
      with ⟨st2, r2⟩
    have hf2 := sendRequestAwait_fields sv st1 "notifications/initialized"
      (Json.obj []) endp hf1.2.1
    rw [h2] at hf2
    have hgoal : st2.postLog =
        st.postLog ++ ⟨endp, st.requestId, "initialize", initParams⟩ ::
          [⟨endp, st1.requestId, "notifications/initialized", Json.obj []⟩] := by
      rw [hf2.1, hf1.1, List.append_assoc]
      rfl
    cases r2 with
    | ok v2 =>
      exact ⟨_, by simp only [initializeSession, h1, h2]; exact hgoal⟩
    | err m =>
      exact ⟨_, by simp only [initializeSession, h1, h2]; exact hgoal⟩
    | hang =>
      exact ⟨_, by simp only [initializeSession, h1, h2]; exact hgoal⟩

/-- C7 (amended): request identifiers come from a per-client-instance
monotonic counter that starts at 0 at construction: the first call of the
instance's first session carries identifier 0, and `cleanup` — the
teardown run between sessions — does not reset the counter, so later
sessions on the same instance continue where the previous one left off. -/
theorem C7_first_identifier (b : String) (sv : Server) (d : String) :
    (mkClient b).requestId = 0 ∧
    (((connectAndInit sv (ConnectEvent.endpoint d) (mkClient b)).1.postLog.map
        (fun p => p.id)).head? = some 0) ∧
    (∀ s, (cleanup s).requestId = s.requestId) := by
  refine ⟨rfl, ?_, fun s => rfl⟩
  rcases hi : initializeSession sv
      { mkClient b with
        eventSourceOpen := true
        sessionEndpoint := some (resolveUrl (mkClient b).baseUrl d) } with ⟨st1, r1⟩
  obtain ⟨rest, hp⟩ := initializeSession_postLog sv
    { mkClient b with
      eventSourceOpen := true
      sessionEndpoint := some (resolveUrl (mkClient b).baseUrl d) }
    (resolveUrl (mkClient b).baseUrl d) rfl
  rw [hi] at hp
  cases r1 with
  | ok u =>
    simp only [connectAndInit, hi]
    rw [hp]
    simp [mkClient]
  | err m =>
    simp only [connectAndInit, hi]
    show (((cleanup st1).postLog.map (fun p => p.id)).head? = some 0)
    rw [show (cleanup st1).postLog = st1.postLog from rfl, hp]
    simp [mkClient]
  | hang =>
    simp only [connectAndInit, hi]
    rw [hp]
    simp [mkClient]

/-- C7, refutation of the claim as stated: on a client instance whose first
session (handshake only) consumed identifiers 0 and 1 and was torn down,
the next session's first call carries identifier 2, not 0. -/
theorem C7_first_identifier_counterexample :
    (((connectAndInit happyServer (ConnectEvent.endpoint "/messages/abc")
          (cleanup (connectAndInit happyServer (ConnectEvent.endpoint "/messages/abc")
            (mkClient "http://localhost:8000")).1)).1.postLog.drop
        (cleanup (connectAndInit happyServer (ConnectEvent.endpoint "/messages/abc")
            (mkClient "http://localhost:8000")).1).postLog.length).map
      (fun p => p.id)).head? = some 2 ∧ (2 : Nat) ≠ 0 :=
  ⟨rfl, by decide⟩

theorem C7_first_identifier_witness :
    ((connectAndInit happyServer (ConnectEvent.endpoint "/messages/abc")
        (mkClient "http://localhost:8000")).1.postLog.map (fun p => p.id)).head? =
      some 0 :=
  (C7_first_identifier "http://localhost:8000" happyServer "/messages/abc").2.1

/-- The identifier invariant: the identifiers of the POSTs issued so far,
followed by the current counter value, form a strictly increasing chain. -/
def postInv (st : ClientState) : Prop :=
  List.Chain' (fun x y => x < y) (st.postLog.map (fun p => p.id) ++ [st.requestId])

lemma postInv_congr (st st' : ClientState) (hl : st'.postLog = st.postLog)
    (hr : st'.requestId = st.requestId) (h : postInv st) : postInv st' := by
  unfold postInv at h ⊢
  rw [hl, hr]
  exact h

lemma postInv_issue (st : ClientState) (endp method : String) (params : Json)
    (h : postInv st) : postInv (issueRequest st endp method params) := by
  unfold postInv at h ⊢
  simp only [issueRequest, List.map_append, List.map_cons, List.map_nil]
  rw [List.append_assoc]
  refine List.chain'_append.mpr ⟨?_, ?_, ?_⟩
  · exact (List.chain'_append.mp h).1
  · refine List.chain'_append.mpr ⟨List.chain'_singleton _, List.chain'_singleton _, ?_⟩
    intro x hx y hy
    simp only [List.getLast?_singleton, Option.mem_def, Option.some.injEq] at hx
    simp only [List.head?_cons, Option.mem_def, Option.some.injEq] at hy
    rw [← hx, ← hy]
    exact Nat.lt_succ_self _
  · intro x hx y hy
    have h3 := (List.chain'_append.mp h).2.2
    have hy2 : st.requestId = y := by simpa using hy
    subst hy2
    exact h3 x hx st.requestId rfl

lemma postInv_onMessage (st : ClientState) (r : JsonRpcResponse)
    (h : postInv st) : postInv (onMessage st r).1 :=
  postInv_congr st (onMessage st r).1 (onMessage_preserves st r).1
    (onMessage_preserves st r).2.2.1 h

lemma postInv_cleanup (st : ClientState) (h : postInv st) : postInv (cleanup st) :=
  postInv_congr st (cleanup st) rfl rfl h

lemma postInv_sendReq (sv : Server) (st : ClientState) (method : String)
    (params : Json) (h : postInv st) :
    postInv (sendRequestAwait sv st method params).1 := by
  cases he : st.sessionEndpoint with
  | none =>
    simp only [sendRequestAwait, he]
    exact h
  | some endp =>
    have hf := sendRequestAwait_fields sv st method params endp he
    exact postInv_congr (issueRequest st endp method params) _ hf.1 hf.2.2
      (postInv_issue st endp method params h)

lemma postInv_initSession (sv : Server) (st : ClientState) (h : postInv st) :
    postInv (initializeSession sv st).1 := by
  rcases h1 : sendRequestAwait sv st "initialize" initParams with ⟨st1, r1⟩
  have hp1 : postInv st1 := by
    have := postInv_sendReq sv st "initialize" initParams h
    rwa [h1] at this
  cases r1 with
  | err m => simp only [initializeSession, h1]; exact hp1
  | hang => simp only [initializeSession, h1]; exact hp1
  | ok v =>
    rcases h2 : sendRequestAwait sv st1 "notifications/initialized" (Json.obj [])
      with ⟨st2, r2⟩
    have hp2 : postInv st2 := by
      have := postInv_sendReq sv st1 "notifications/initialized" (Json.obj []) hp1
      rwa [h2] at this
    cases r2 with
    | ok v2 => simp only [initializeSession, h1, h2]; exact hp2
    | err m => simp only [initializeSession, h1, h2]; exact hp2
    | hang => simp only [initializeSession, h1, h2]; exact hp2

lemma postInv_connect (sv : Server) (ev : ConnectEvent) (st : ClientState)
    (h : postInv st) : postInv (connectAndInit sv ev st).1 := by
  cases ev with
  | ctorFail => exact h
  | streamError =>
    rcases hoe : onError { st with eventSourceOpen := true } with ⟨stE, mo⟩
    have hpe : postInv stE := by
      by_cases hE : ({ st with eventSourceOpen := true } : ClientState).sessionEndpoint = none
      · rw [onError, if_pos hE] at hoe
        have : stE = cleanup { st with eventSourceOpen := true } :=
          (congrArg Prod.fst hoe).symm
        rw [this]
        exact postInv_cleanup _ (postInv_congr st _ rfl rfl h)
      · rw [onError, if_neg hE] at hoe
        have : stE = { st with eventSourceOpen := true } :=
          (congrArg Prod.fst hoe).symm
        rw [this]
        exact postInv_congr st _ rfl rfl h
    simp only [connectAndInit, hoe]
    cases mo with
    | none => exact hpe
    | some m => exact hpe
  | endpoint data =>
    rcases hi : initializeSession sv
        { st with
          eventSourceOpen := true
          sessionEndpoint := some (resolveUrl st.baseUrl data) } with ⟨st1, r1⟩
    have hp1 : postInv st1 := by
      have := postInv_initSession sv
        { st with
          eventSourceOpen := true
          sessionEndpoint := some (resolveUrl st.baseUrl data) }
        (postInv_congr st _ rfl rfl h)
      rwa [hi] at this
    cases r1 with
    | ok u => simp only [connectAndInit, hi]; exact hp1
    | err m => simp only [connectAndInit, hi]; exact postInv_cleanup _ hp1
    | hang => simp only [connectAndInit, hi]; exact hp1

lemma postInv_getDebateTopic (sv : Server) (ev : ConnectEvent)
    (parse : Option Json → Option Json) (st : ClientState) (h : postInv st) :
    postInv (getDebateTopic sv ev parse st).1 := by
  rcases hc : connectAndInit sv ev st with ⟨st1, r1⟩
  have hp1 : postInv st1 := by
    have := postInv_connect sv ev st h
    rwa [hc] at this
  cases r1 with
  | err m => simp only [getDebateTopic, hc]; exact hp1
  | hang => simp only [getDebateTopic, hc]; exact hp1
  | ok u =>
    simp only [getDebateTopic, hc]
    rcases hct : callTool sv st1 "get_debate_topic" (Json.obj []) with ⟨st2, r2⟩
    have hp2 : postInv st2 := by
      have := postInv_sendReq sv st1 "tools/call"
        (Json.obj [("name", Json.str "get_debate_topic"), ("arguments", Json.obj [])]) hp1
      rw [callTool] at hct
      rwa [hct] at this
    cases r2 with
    | hang => exact hp2
    | err m => exact postInv_cleanup _ hp2
    | ok result =>
      cases hex : extractContent result with
      | accessError => simp only [hex]; exact postInv_cleanup _ hp2
      | noTextEntry => simp only [hex]; exact postInv_cleanup _ hp2
      | found item =>
        simp only [hex]
        cases hp : parse (item.getField? "text") with
        | some payload => simp only [hp]; exact postInv_cleanup _ hp2
        | none => simp only [hp]; exact postInv_cleanup _ hp2

lemma postInv_listTools (sv : Server) (ev : ConnectEvent) (st : ClientState)
    (h : postInv st) : postInv (listTools sv ev st).1 := by
  rcases hc : connectAndInit sv ev st with ⟨st1, r1⟩
  have hp1 : postInv st1 := by
    have := postInv_connect sv ev st h
    rwa [hc] at this
  cases r1 with
  | err m => simp only [listTools, hc]; exact hp1
  | hang => simp only [listTools, hc]; exact hp1
  | ok u =>
    simp only [listTools, hc]
    rcases hsr : sendRequestAwait sv st1 "tools/list" (Json.obj []) with ⟨st2, r2⟩
    have hp2 : postInv st2 := by
      have := postInv_sendReq sv st1 "tools/list" (Json.obj []) hp1
      rwa [hsr] at this
    cases r2 with
    | hang => exact hp2
    | err m => exact postInv_cleanup _ hp2
    | ok result =>
      cases result with
      | none => exact postInv_cleanup _ hp2
      | some j =>
        cases j with
        | null => exact postInv_cleanup _ hp2
        | bool b => exact postInv_cleanup _ hp2
        | num n => exact postInv_cleanup _ hp2
        | str s => exact postInv_cleanup _ hp2
        | arr xs => exact postInv_cleanup _ hp2
        | obj fs =>
          cases hj : (Json.obj fs).getField? "tools" with
          | none => simp only [hj]; exact postInv_cleanup _ hp2
          | some t =>
            simp only [hj]
            by_cases ht : t.truthy
            · simp only [ht, if_true]; exact postInv_cleanup _ hp2
            · simp only [ht, if_false]; exact postInv_cleanup _ hp2

/-- One high-level operation invoked on a client instance, with the server
behaviour, connect-phase event and (for topics) parser it runs against. -/
inductive OpCall where
  | topic : Server → ConnectEvent → (Option Json → Option Json) → OpCall
  | tools : Server → ConnectEvent → OpCall

/-- Run a sequence of high-level operations on one client instance,
threading its state. -/
def runOps (st : ClientState) : List OpCall → ClientState
  | [] => st
  | OpCall.topic sv ev parse :: rest => runOps (getDebateTopic sv ev parse st).1 rest
  | OpCall.tools sv ev :: rest => runOps (listTools sv ev st).1 rest

lemma postInv_runOps (ops : List OpCall) (st : ClientState) (h : postInv st) :
    postInv (runOps st ops) := by
  induction ops generalizing st with
  | nil => exact h
  | cons op rest ih =>
    cases op with
    | topic sv ev parse => exact ih _ (postInv_getDebateTopic sv ev parse st h)
    | tools sv ev => exact ih _ (postInv_listTools sv ev st h)

/-- C8: over any sequence of high-level operations run on one client
instance, the identifiers assigned to the issued calls are strictly
increasing in issuance order — hence no identifier is ever reused. -/
theorem C8_identifiers_strictly_increasing (b : String) (ops : List OpCall) :
    List.Chain' (fun x y => x < y)
      ((runOps (mkClient b) ops).postLog.map (fun p => p.id)) ∧
    ((runOps (mkClient b) ops).postLog.map (fun p => p.id)).Nodup := by
  have h0 : postInv (mkClient b) := by
    unfold postInv
    simp [mkClient]
  have h := postInv_runOps ops (mkClient b) h0
  unfold postInv at h
  have hch : List.Chain' (fun x y => x < y)
      ((runOps (mkClient b) ops).postLog.map (fun p => p.id)) :=
    (List.chain'_append.mp h).1
  refine ⟨hch, ?_⟩
  have hpw : List.Pairwise (fun x y => x < y)
      ((runOps (mkClient b) ops).postLog.map (fun p => p.id)) :=
    List.chain'_iff_pairwise.mp hch
  exact hpw.imp Nat.ne_of_lt

theorem C8_identifiers_strictly_increasing_witness :
    ((runOps (mkClient "http://localhost:8000")
        [OpCall.tools happyServer (ConnectEvent.endpoint "/messages/abc"),
         OpCall.topic happyServer (ConnectEvent.endpoint "/messages/abc") parseTopic]
      ).postLog.map (fun p => p.id)) = [0, 1, 2, 3, 4, 5] ∧
    (((runOps (mkClient "http://localhost:8000")
        [OpCall.tools happyServer (ConnectEvent.endpoint "/messages/abc"),
         OpCall.topic happyServer (ConnectEvent.endpoint "/messages/abc") parseTopic]
      ).postLog.map (fun p => p.id)).Nodup) :=
  ⟨rfl,
   (C8_identifiers_strictly_increasing "http://localhost:8000"
     [OpCall.tools happyServer (ConnectEvent.endpoint "/messages/abc"),
      OpCall.topic happyServer (ConnectEvent.endpoint "/messages/abc") parseTopic]).2⟩
